import Mathlib

/-!
Shallow embedding of the telemetry tracking subsystem of the Acontext CLI
(`src/client/acontext-cli/main.go`).

Modelling choices:
* A cobra `*Command` is represented, for path resolution, by its chain of
  `Use` strings walking parent pointers upward: `[node.Use, parent.Use, ...]`,
  ending with the root's `Use` (`"acontext"`); a `nil` parent is the end of
  the list.
* `time.Time` / `time.Duration` are abstract `Nat` time units.
* The cobra context value `startTimeKey` is an `Option Nat` (absent when the
  pre-run hook did not record a start time).
* A `pflag.Flag` is a record of its name, its `Value.String()` form, its
  declared default, and its `Changed` bit; `FlagSet.Visit` visits exactly the
  flags whose `Changed` bit is set (pflag's documented behaviour).
* The goroutine/WaitGroup/select machinery in `trackCommandAndWait` (lines
  74-87) is abstracted to explicit time arithmetic: the background send
  completes at some time `completion : Option Nat` (`none` = never while the
  caller waits), and the `select` between the done channel and
  `time.After(5 * time.Second)` returns at the earlier of the two.
-/

namespace Acontext

/-- The development sentinel version (`var version = "dev"`, main.go line 21). -/
def devVersion : String := "dev"

/-- The root command's use-string (`rootCmd.Use`, main.go line 131). -/
def rootUse : String := "acontext"

/-- The bounded-wait ceiling in time units (`5 * time.Second`, main.go line 85). -/
def waitCeiling : Nat := 5

/-- The upward walk of `buildCommandPath` (main.go lines 95-99): iterate over
the `Use` strings from the given node up through parents, stopping at the
first node named `"acontext"` (or at a nil parent, i.e. the end of the
chain), prepending each visited `Use` to the accumulated parts. -/
def walkUp : List String → List String → List String
  | [], parts => parts
  | u :: rest, parts => if u = rootUse then parts else walkUp rest (u :: parts)

/-- The list of path segments `buildCommandPath` accumulates for a node whose
upward `Use`-chain is `chain`. -/
def pathParts (chain : List String) : List String :=
  walkUp chain []

/-- `buildCommandPath` (main.go lines 91-106): walk up the command tree
collecting `Use` strings, return `"root"` when zero segments were collected,
otherwise the dot-joined segments. -/
def buildCommandPath (chain : List String) : String :=
  let parts := pathParts chain
  if parts.length = 0 then "root" else String.intercalate "." parts

/-- A `pflag.Flag` as seen by `collectFlags`: its name, its current value's
string form (`flag.Value.String()`), its declared default, and pflag's
`Changed` bit (set exactly when the invoker explicitly set the flag on the
command line, even to its default value). -/
structure Flag where
  name : String
  value : String
  defValue : String
  changed : Bool
deriving Repr, DecidableEq

/-- `collectFlags` (main.go lines 109-117): `cmd.Flags().Visit` visits only
the flags whose `Changed` bit is set, and each visited flag is inserted into
the result map as name ↦ `Value.String()`. The Go map is modelled as an
association list queried by `List.lookup`. -/
def collectFlags (fs : List Flag) : List (String × String) :=
  (fs.filter (fun f => f.changed)).map (fun f => (f.name, f.value))

/-- `filterArgs` (main.go lines 120-128): keep, in order, every argument that
is none of the literals `"--help"`, `"-h"`, `"help"`. -/
def filterArgs : List String → List String
  | [] => []
  | a :: rest =>
    if a ≠ "--help" ∧ a ≠ "-h" ∧ a ≠ "help" then a :: filterArgs rest
    else filterArgs rest

/-- The duration computation of `trackCommandAndWait` (main.go lines 47-55):
`duration` is the zero value unless `success`; on success the start time is
read from the command context, falling back to `time.Now()` (so that
`time.Since` yields zero) when absent. -/
def computeDuration (success : Bool) (ctxStart : Option Nat) (now : Nat) : Nat :=
  if success then
    let startTime := ctxStart.getD now
    now - startTime
  else 0

/-- The Telemetry Event record handed to the collector. -/
structure Event where
  commandPath : String
  args : List String
  flags : List (String × String)
  success : Bool
  errText : Option String
  duration : Option Nat
  version : String
deriving Repr, DecidableEq

/-- Modelled from the spec: the event assembly inside
`telemetry.TrackCommandAsync` (package `internal/telemetry`, which is not
under `src/`; `main.go` line 64 passes it path, filtered args, flags,
success, error, duration and version). Per the spec's data model, the event
carries an "error description (present only when success is false)" and an
"execution duration (present only when success is true — duration for
failed/aborted runs is not computed)". -/
def mkEvent (path : String) (args : List String) (flags : List (String × String))
    (success : Bool) (errText : String) (duration : Nat) (version : String) : Event :=
  { commandPath := path
    args := args
    flags := flags
    success := success
    errText := if success then none else some errText
    duration := if success then some duration else none
    version := version }

/-- The dispatch effect of `trackCommandAndWait` (main.go lines 41-72): `none`
when the dev-version guard returns early (no event is built), otherwise the
single event assembled from the command chain, flags, filtered args, success
flag, error text and computed duration. -/
def trackEvent (version : String) (chain : List String) (fs : List Flag)
    (args : List String) (errText : String) (success : Bool)
    (ctxStart : Option Nat) (now : Nat) : Option Event :=
  if version = devVersion then none
  else
    some (mkEvent (buildCommandPath chain) (filterArgs args) (collectFlags fs)
      success errText (computeDuration success ctxStart now) version)

/-- Number of outbound transmission attempts a single `trackCommandAndWait`
invocation launches: zero when the dev guard fires, otherwise the one
goroutine `telemetry.TrackCommandAsync` spawns for the send. -/
def transmissionAttempts (version : String) (chain : List String) (fs : List Flag)
    (args : List String) (errText : String) (success : Bool)
    (ctxStart : Option Nat) (now : Nat) : Nat :=
  match trackEvent version chain fs args errText success ctxStart now with
  | none => 0
  | some _ => 1

/-- The time (in abstract units after entry) at which `trackCommandAndWait`
returns control to its caller (main.go lines 41-88). The dev guard returns
immediately. Otherwise the caller blocks in the `select` between the
`done` channel — closed when the background send's WaitGroup signals at time
`completion` (`none`: the send has not completed by any time the caller could
still be waiting) — and `time.After(5 * time.Second)`: it returns at the
earlier of the completion signal and the 5-unit ceiling. -/
def dispatcherReturnTime (version : String) (completion : Option Nat) : Nat :=
  if version = devVersion then 0
  else
    match completion with
    | some t => min t waitCeiling
    | none => waitCeiling

/-- An observable step of `main` on its failure path. -/
inductive MainStep where
  | stderrWrite (msg : String)
  | dispatcherCall (chain : List String) (errText : String) (success : Bool)
  | dispatcherReturn
  | exitProcess (code : Nat)
deriving Repr, DecidableEq

/-- The failure path of `main` (main.go lines 29-37) as an ordered trace of
observable steps: write `Error: <err>` to stderr, call
`trackCommandAndWait(executedCmd, args, err, false)`, wait for it to return
(bounded wait elapsed or send complete), then `os.Exit(1)`. -/
def mainFailureTrace (errText : String) (executedChain : List String) : List MainStep :=
  [ MainStep.stderrWrite ("Error: " ++ errText)
  , MainStep.dispatcherCall executedChain errText false
  , MainStep.dispatcherReturn
  , MainStep.exitProcess 1 ]

/-! ### Helper lemmas -/

/-- `walkUp` is the reverse of the prefix of the chain strictly before the
first `"acontext"`, prepended to the accumulator. -/
theorem walkUp_eq_takeWhile (chain : List String) (parts : List String) :
    walkUp chain parts =
      (chain.takeWhile (fun u => u ≠ rootUse)).reverse ++ parts := by
  induction chain generalizing parts with
  | nil => simp [walkUp]
  | cons u rest ih =>
    by_cases hu : u = rootUse
    · simp [walkUp, hu, List.takeWhile_cons]
    · simp [walkUp, hu, List.takeWhile_cons, ih]

/-- `takeWhile` over a list all of whose elements satisfy the predicate,
followed by an element that does not, yields exactly that list. -/
theorem takeWhile_append_sentinel (p : String → Bool) (us : List String)
    (v : String) (rest : List String)
    (hus : ∀ u ∈ us, p u = true) (hv : p v = false) :
    (us ++ v :: rest).takeWhile p = us := by
  induction us with
  | nil => simp [List.takeWhile_cons, hv]
  | cons u us ih =>
    have hu : p u = true := hus u (by simp)
    simp only [List.cons_append, List.takeWhile_cons, hu, if_true]
    rw [ih (fun x hx => hus x (by simp [hx]))]

theorem filterArgs_eq_filter (xs : List String) :
    filterArgs xs =
      xs.filter (fun a => decide (a ≠ "--help" ∧ a ≠ "-h" ∧ a ≠ "help")) := by
  induction xs with
  | nil => rfl
  | cons a rest ih =>
    by_cases h : a ≠ "--help" ∧ a ≠ "-h" ∧ a ≠ "help"
    · simp [filterArgs, h, ih]
    · simp [filterArgs, h, ih]

theorem mem_filterArgs {a : String} {xs : List String} (h : a ∈ filterArgs xs) :
    a ≠ "--help" ∧ a ≠ "-h" ∧ a ≠ "help" := by
  rw [filterArgs_eq_filter] at h
  have := List.of_mem_filter h
  simpa using this

/-- Unfolding of `collectFlags` over the head flag of the set. -/
theorem collectFlags_cons (g : Flag) (gs : List Flag) :
    collectFlags (g :: gs) =
      if g.changed then (g.name, g.value) :: collectFlags gs
      else collectFlags gs := by
  by_cases hc : g.changed <;> simp [collectFlags, List.filter_cons, hc]

/-- Keys of `collectFlags` come from flag names, so a name absent from the
flag set is absent from the output. -/
theorem collectFlags_lookup_not_mem (fs : List Flag) (x : String)
    (hx : x ∉ fs.map Flag.name) :
    (collectFlags fs).lookup x = none := by
  induction fs with
  | nil => rfl
  | cons g gs ih =>
    have hxg : x ≠ g.name := fun h => hx (by simp [h])
    have hxgs : x ∉ gs.map Flag.name := fun h => hx (by simp [h])
    rw [collectFlags_cons]
    by_cases hc : g.changed
    · simp [hc, List.lookup, beq_eq_false_iff_ne.mpr hxg, ih hxgs]
    · simp [hc, ih hxgs]

/-! ### Claim theorems -/

/-- C7: for every argument list, `filterArgs` returns the same list with every
occurrence of the literal tokens `--help`, `-h` and `help` removed, preserving
the relative order of the remaining tokens (it equals the order-preserving
`List.filter`, is a sublist of its input, drops exactly the three help tokens
and keeps everything else); as a Lean `def` over lists it is pure and total. -/
theorem filterArgs_removes_help_tokens (xs : List String) :
    filterArgs xs =
      xs.filter (fun a => decide (a ≠ "--help" ∧ a ≠ "-h" ∧ a ≠ "help")) ∧
    List.Sublist (filterArgs xs) xs ∧
    (∀ a ∈ filterArgs xs, a ≠ "--help" ∧ a ≠ "-h" ∧ a ≠ "help") ∧
    (∀ a ∈ xs, a ≠ "--help" → a ≠ "-h" → a ≠ "help" → a ∈ filterArgs xs) := by
  refine ⟨filterArgs_eq_filter xs, ?_, fun a ha => mem_filterArgs ha, ?_⟩
  · rw [filterArgs_eq_filter]
    exact List.filter_sublist xs
  · intro a ha h1 h2 h3
    rw [filterArgs_eq_filter]
    exact List.mem_filter.mpr ⟨ha, by simp [h1, h2, h3]⟩

/-- C8: `filterArgs` is idempotent — filtering an already-filtered list yields
the same list — and on the concrete input
`["a", "--help", "b", "-h", "help", "c"]` it yields `["a", "b", "c"]`. -/
theorem filterArgs_idempotent :
    (∀ xs : List String, filterArgs (filterArgs xs) = filterArgs xs) ∧
    filterArgs ["a", "--help", "b", "-h", "help", "c"] = ["a", "b", "c"] := by
  constructor
  · intro xs
    rw [filterArgs_eq_filter (filterArgs xs)]
    exact List.filter_eq_self.mpr (fun a ha => by simp [mem_filterArgs ha])
  · rfl

/-- C9: `buildCommandPath` applied to the root Command Node (whose upward
chain is just the root's own use-string `"acontext"`) returns the literal
sentinel string `"root"`. -/
theorem buildCommandPath_root : buildCommandPath [rootUse] = "root" := rfl

/-- C4: for every Command Node at depth `d ≥ 1` of the command tree — its
upward chain is `us ++ ["acontext"]` with `d` intermediate use-strings, none
of them the root's own name — `buildCommandPath` yields the dot-join of
exactly `d` segments, none of which equals the root's own name. -/
theorem buildCommandPath_depth (us : List String) (d : Nat)
    (hlen : us.length = d) (hd : 1 ≤ d) (hne : ∀ u ∈ us, u ≠ rootUse) :
    (pathParts (us ++ [rootUse])).length = d ∧
    buildCommandPath (us ++ [rootUse]) =
      String.intercalate "." (pathParts (us ++ [rootUse])) ∧
    ∀ p ∈ pathParts (us ++ [rootUse]), p ≠ rootUse := by
  have hparts : pathParts (us ++ [rootUse]) = us.reverse := by
    unfold pathParts
    rw [walkUp_eq_takeWhile, List.append_nil,
      takeWhile_append_sentinel _ us rootUse []
        (fun u hu => by simpa using hne u hu) (by simp)]
  refine ⟨by simp [hparts, hlen], ?_, ?_⟩
  · unfold buildCommandPath
    have : (pathParts (us ++ [rootUse])).length = d := by simp [hparts, hlen]
    rw [if_neg (by omega)]
  · intro p hp
    rw [hparts] at hp
    exact hne p (List.mem_reverse.mp hp)

/-- C4 witness: the node `create` at depth 1. -/
theorem buildCommandPath_depth_witness :
    (pathParts ["create", rootUse]).length = 1 ∧
    buildCommandPath ["create", rootUse] =
      String.intercalate "." (pathParts ["create", rootUse]) ∧
    ∀ p ∈ pathParts ["create", rootUse], p ≠ rootUse :=
  buildCommandPath_depth ["create"] 1 rfl (by decide) (by decide)

/-- C10: the walk in `buildCommandPath` terminates at the first node whose
use-string is `"acontext"` (or at a nil parent), not at the tree's actual root
object: a node itself named `"acontext"` yields `"root"` at any depth, and for
a node whose ancestor chain contains an `"acontext"`-named node, the segments
above that node are never included — the path is the same as if that node
were the end of the chain. -/
theorem buildCommandPath_stops_at_acontext (us rest : List String)
    (hne : ∀ u ∈ us, u ≠ rootUse) :
    buildCommandPath (rootUse :: rest) = "root" ∧
    buildCommandPath (us ++ rootUse :: rest) = buildCommandPath (us ++ [rootUse]) := by
  constructor
  · unfold buildCommandPath pathParts walkUp
    simp
  · have h1 : pathParts (us ++ rootUse :: rest) = us.reverse := by
      unfold pathParts
      rw [walkUp_eq_takeWhile, List.append_nil,
        takeWhile_append_sentinel _ us rootUse rest
          (fun u hu => by simpa using hne u hu) (by simp)]
    have h2 : pathParts (us ++ [rootUse]) = us.reverse := by
      unfold pathParts
      rw [walkUp_eq_takeWhile, List.append_nil,
        takeWhile_append_sentinel _ us rootUse []
          (fun u hu => by simpa using hne u hu) (by simp)]
    unfold buildCommandPath
    rw [h1, h2]

/-- C10 witness: the chain `["up", "acontext", "docker"]` — a node `up` under
an intermediate node named `acontext` — resolves ignoring everything above
the `acontext` node. -/
theorem buildCommandPath_stops_at_acontext_witness :
    buildCommandPath (rootUse :: ["docker"]) = "root" ∧
    buildCommandPath (["up"] ++ rootUse :: ["docker"]) =
      buildCommandPath (["up"] ++ [rootUse]) :=
  buildCommandPath_stops_at_acontext ["up"] ["docker"] (by decide)

/-- C6: `collectFlags` outputs exactly the explicitly-set flags — for any flag
of a set with distinct names, one never set on the command line (its `Changed`
bit is clear, whatever its declared default) is absent from the output, while
one explicitly set (its `Changed` bit is set, even if its value equals its
default) maps to its value's string form. -/
theorem collectFlags_exactly_set (fs : List Flag) (f : Flag)
    (hnd : (fs.map Flag.name).Nodup) (hf : f ∈ fs) :
    (f.changed = false → (collectFlags fs).lookup f.name = none) ∧
    (f.changed = true → (collectFlags fs).lookup f.name = some f.value) := by
  induction fs with
  | nil => cases hf
  | cons g gs ih =>
    have hnd' : (gs.map Flag.name).Nodup := (List.nodup_cons.mp hnd).2
    have hgns : g.name ∉ gs.map Flag.name := (List.nodup_cons.mp hnd).1
    rcases List.mem_cons.mp hf with hfg | hfgs
    · subst hfg
      rw [collectFlags_cons]
      constructor
      · intro hc
        rw [if_neg (by simp [hc])]
        exact collectFlags_lookup_not_mem gs f.name hgns
      · intro hc
        rw [if_pos hc]
        simp [List.lookup]
    · have hne : f.name ≠ g.name := by
        intro h
        exact hgns (h ▸ List.mem_map.mpr ⟨f, hfgs, rfl⟩)
      have htail := ih hnd' hfgs
      rw [collectFlags_cons]
      by_cases hc : g.changed
      · rw [if_pos hc]
        constructor
        · intro h
          simpa [List.lookup, beq_eq_false_iff_ne.mpr hne] using htail.1 h
        · intro h
          simpa [List.lookup, beq_eq_false_iff_ne.mpr hne] using htail.2 h
      · rw [if_neg hc]
        exact htail

/-- C6 witness: in a set with `template` explicitly set to `"python"` and
`verbose` left at its default, the output maps `template` to `"python"` and
omits `verbose`. -/
theorem collectFlags_exactly_set_witness :
    ((collectFlags [⟨"template", "python", "", true⟩,
        ⟨"verbose", "false", "false", false⟩]).lookup "template" = some "python") ∧
    ((collectFlags [⟨"template", "python", "", true⟩,
        ⟨"verbose", "false", "false", false⟩]).lookup "verbose" = none) :=
  ⟨(collectFlags_exactly_set
      [⟨"template", "python", "", true⟩, ⟨"verbose", "false", "false", false⟩]
      ⟨"template", "python", "", true⟩ (by decide) (by decide)).2 rfl,
   (collectFlags_exactly_set
      [⟨"template", "python", "", true⟩, ⟨"verbose", "false", "false", false⟩]
      ⟨"verbose", "false", "false", false⟩ (by decide) (by decide)).1 rfl⟩

/-- C2: when the version string equals the development sentinel `"dev"`,
`trackCommandAndWait` returns immediately for every input: no Telemetry Event
is constructed, zero outbound transmission attempts occur, and the caller is
not made to wait (return time 0 regardless of the background completion). -/
theorem trackCommand_dev_noop (version : String) (chain : List String)
    (fs : List Flag) (args : List String) (errText : String) (success : Bool)
    (ctxStart : Option Nat) (now : Nat) (completion : Option Nat)
    (hv : version = "dev") :
    trackEvent version chain fs args errText success ctxStart now = none ∧
    transmissionAttempts version chain fs args errText success ctxStart now = 0 ∧
    dispatcherReturnTime version completion = 0 := by
  subst hv
  refine ⟨rfl, ?_, rfl⟩
  simp [transmissionAttempts, trackEvent, devVersion]

/-- C2 witness: a concrete dev-version invocation builds no event, makes no
transmission attempt and returns at time 0. -/
theorem trackCommand_dev_noop_witness :
    trackEvent "dev" ["create", rootUse] [] ["myapp"] "" true (some 3) 10 = none ∧
    transmissionAttempts "dev" ["create", rootUse] [] ["myapp"] "" true (some 3) 10 = 0 ∧
    dispatcherReturnTime "dev" (some 2) = 0 :=
  trackCommand_dev_noop "dev" ["create", rootUse] [] ["myapp"] "" true
    (some 3) 10 (some 2) rfl

/-- C3: every Telemetry Event dispatched with `success = false` carries no
duration, and every event dispatched with `success = true` carries one — the
duration computed from the recorded start time, falling back to a reported
duration of zero when no start time was recorded in the invocation context
(the computation is total: no crash). -/
theorem event_duration_invariant (version : String) (chain : List String)
    (fs : List Flag) (args : List String) (errText : String) (success : Bool)
    (ctxStart : Option Nat) (now : Nat) (e : Event)
    (he : trackEvent version chain fs args errText success ctxStart now = some e) :
    (success = false → e.duration = none) ∧
    (success = true →
      e.duration = some (computeDuration success ctxStart now) ∧
      (ctxStart = none → e.duration = some 0)) := by
  unfold trackEvent at he
  by_cases hv : version = devVersion
  · simp [hv] at he
  · rw [if_neg hv, Option.some.injEq] at he
    subst he
    constructor
    · intro hs
      simp [mkEvent, hs]
    · intro hs
      subst hs
      refine ⟨by simp [mkEvent], ?_⟩
      intro hcs
      subst hcs
      simp [mkEvent, computeDuration]

/-- C3 witness: a released-version success event with no recorded start time
carries duration zero; the corresponding failure event carries none. -/
theorem event_duration_invariant_witness :
    ((mkEvent "root" [] [] true "" (computeDuration true none 7) "1.0").duration
        = some 0) ∧
    ((mkEvent "root" [] [] false "boom" (computeDuration false none 7) "1.0").duration
        = none) :=
  ⟨((event_duration_invariant "1.0" [rootUse] [] [] "" true none 7
      (mkEvent "root" [] [] true "" (computeDuration true none 7) "1.0")
      rfl).2 rfl).2 rfl,
   (event_duration_invariant "1.0" [rootUse] [] [] "boom" false none 7
      (mkEvent "root" [] [] false "boom" (computeDuration false none 7) "1.0")
      rfl).1 rfl⟩

/-- C1: for every invocation of `trackCommandAndWait`, control returns to the
caller within the 5-time-unit ceiling (the constant overhead of channel setup
is not modelled, so the bound is exactly 5), whether the underlying
transmission completed at any time or is still in flight (`none`). -/
theorem dispatcher_returns_within_ceiling (version : String)
    (completion : Option Nat) :
    dispatcherReturnTime version completion ≤ 5 ∧ waitCeiling = 5 := by
  refine ⟨?_, rfl⟩
  unfold dispatcherReturnTime
  by_cases hv : version = devVersion
  · simp [hv]
  · rw [if_neg hv]
    cases completion with
    | none => exact Nat.le_refl _
    | some t => exact min_le_right t waitCeiling

/-- C5: on the failure path of `main`, the error text is written to the
standard error stream strictly before the telemetry dispatcher is invoked
(and no dispatcher call precedes the stderr write), and the process exits
with status 1 only after the dispatcher has returned, as the final step of
the trace. -/
theorem main_failure_ordering (errText : String) (chain : List String) :
    ∃ i j k l : Nat, i < j ∧ j < k ∧ k < l ∧
      (mainFailureTrace errText chain)[i]? =
        some (MainStep.stderrWrite ("Error: " ++ errText)) ∧
      (mainFailureTrace errText chain)[j]? =
        some (MainStep.dispatcherCall chain errText false) ∧
      (mainFailureTrace errText chain)[k]? = some MainStep.dispatcherReturn ∧
      (mainFailureTrace errText chain)[l]? = some (MainStep.exitProcess 1) ∧
      l = (mainFailureTrace errText chain).length - 1 ∧
      ∀ m < i, ∀ c e s,
        (mainFailureTrace errText chain)[m]? ≠ some (MainStep.dispatcherCall c e s) := by
  refine ⟨0, 1, 2, 3, by omega, by omega, by omega, rfl, rfl, rfl, rfl, rfl, ?_⟩
  intro m hm
  omega

end Acontext
